import Mathlib

/-!
Shallow embedding of the customer-request classification pipeline
(`src/data/loader.py`, `src/model/trainer.py`, `src/model/predictor.py`,
`src/api/app.py`, `src/api/routes.py`).

Real-valued library computations (scikit-learn's TF-IDF weighting,
logistic-regression probabilities) run on floating point; the embedding
works over `ℚ` and keeps the transcendental ingredients of the library
(the sublinear dampening `1 + log`, the square root of the L2 norm, and
the softmax link `exp`) as explicit function parameters, so every theorem
states exactly which analytic facts about them it needs.
-/

namespace PMEClassifier

/-! ## Text analysis
Models the word analyzer of `TfidfVectorizer(analyzer="word",
strip_accents="unicode", lowercase default True, token_pattern default
`\w\w+`, ngram_range = (1, 2))` configured in `ModelTrainer._build_pipeline`.
-/

/-- A word character in the sense of the vectorizer's token pattern `\w`. -/
def isWordChar (c : Char) : Bool :=
  c.isAlphanum || c = '_'

/-- Accent folding for the characters occurring in the project's French data;
models `strip_accents="unicode"`. -/
def stripAccent (c : Char) : Char :=
  if c = 'é' ∨ c = 'è' ∨ c = 'ê' ∨ c = 'ë' then 'e'
  else if c = 'à' ∨ c = 'â' then 'a'
  else if c = 'ù' ∨ c = 'û' then 'u'
  else if c = 'ô' then 'o'
  else if c = 'î' ∨ c = 'ï' then 'i'
  else if c = 'ç' then 'c'
  else c

/-- Lower-case, fold accents, and replace every non-word character by a
space, preparing the character stream for word extraction. -/
def normalizeChars (l : List Char) : List Char :=
  l.map (fun c =>
    let c' := stripAccent c.toLower
    if isWordChar c' then c' else ' ')

/-- Split a space-separated character stream into words (`cur` is the
reversed current word). -/
def wordsAux : List Char → List Char → List (List Char)
  | [], cur => if cur.isEmpty then [] else [cur.reverse]
  | c :: cs, cur =>
      if c = ' ' then
        if cur.isEmpty then wordsAux cs [] else cur.reverse :: wordsAux cs []
      else wordsAux cs (c :: cur)

/-- Unigram tokens of a text: words of at least two word characters,
per the default token pattern `\w\w+`. -/
def tokenize (s : String) : List String :=
  ((wordsAux (normalizeChars s.data) []).filter (fun w => 2 ≤ w.length)).map
    (fun w => String.mk w)

/-- Adjacent-pair bigrams, joined by a single space as in scikit-learn. -/
def bigrams : List String → List String
  | a :: b :: rest => (a ++ " " ++ b) :: bigrams (b :: rest)
  | _ => []

/-- The n-grams of a text for `ngram_range = (1, 2)`: unigrams then bigrams. -/
def ngrams (s : String) : List String :=
  tokenize s ++ bigrams (tokenize s)

/-! ## TF-IDF transform (fitted state)
A fitted `TfidfVectorizer` is its learned vocabulary together with one idf
weight per vocabulary term.  `transform` computes, per term, the sublinearly
dampened term count (`sublinear_tf=True`) times the idf weight, then
L2-normalizes the vector.  The dampening (`1 + log tf` on the library's
floats) is the parameter `d`, the square root used by the L2 norm is the
parameter `sq`. -/

structure FittedTfidf where
  vocab : List String
  idf : List ℚ
  deriving DecidableEq

/-- Raw occurrence count of each vocabulary term in the text's n-grams. -/
def rawCounts (v : FittedTfidf) (texte : String) : List ℕ :=
  v.vocab.map (fun term => (ngrams texte).count term)

/-- Dampened tf times idf, sparse semantics: absent terms contribute `0`. -/
def tfidfRaw (v : FittedTfidf) (d : ℕ → ℚ) (texte : String) : List ℚ :=
  List.zipWith (fun (c : ℕ) (w : ℚ) => if c = 0 then 0 else d c * w)
    (rawCounts v texte) v.idf

/-- Sum of squares of a vector (the squared L2 norm). -/
def sumSq (l : List ℚ) : ℚ :=
  (l.map (fun x => x * x)).sum

/-- L2 normalization with scikit-learn's zero-norm guard: a vector of zero
norm is returned unchanged instead of being divided by zero. -/
def l2normalize (sq : ℚ → ℚ) (l : List ℚ) : List ℚ :=
  if sumSq l = 0 then l else l.map (fun x => x / sq (sumSq l))

/-- `TfidfVectorizer.transform` on a single text. -/
def FittedTfidf.transform (v : FittedTfidf) (d : ℕ → ℚ) (sq : ℚ → ℚ)
    (texte : String) : List ℚ :=
  l2normalize sq (tfidfRaw v d texte)

/-! ## Logistic-regression classifier (fitted state)
A fitted `LogisticRegression` is its sorted class list `classes_`
(scikit-learn sets `classes_ = np.unique(y)`, which is sorted and
duplicate-free), one coefficient row per class, and one intercept per
class.  `predict_proba` is the softmax of the decision scores; the
exponential link is the parameter `g`. -/

structure FittedLogReg where
  classes_ : List String
  coef : List (List ℚ)
  intercept : List ℚ
  deriving DecidableEq

/-- Dot product of two vectors (truncating to the shorter one). -/
def dot (w x : List ℚ) : ℚ :=
  (List.zipWith (· * ·) w x).sum

/-- Per-class decision scores `coef · x + intercept`. -/
def decisionScores (m : FittedLogReg) (x : List ℚ) : List ℚ :=
  List.zipWith (fun w b => dot w x + b) m.coef m.intercept

/-- Softmax normalization with link `g` (models `exp`). -/
def softmax (g : ℚ → ℚ) (z : List ℚ) : List ℚ :=
  z.map (fun zi => g zi / (z.map g).sum)

/-- `LogisticRegression.predict_proba` on a single feature vector. -/
def FittedLogReg.predictProba (m : FittedLogReg) (g : ℚ → ℚ) (x : List ℚ) :
    List ℚ :=
  softmax g (decisionScores m x)

/-- `np.max`: maximum of a nonempty array (0 as junk value on `[]`). -/
def npMax : List ℚ → ℚ
  | [] => 0
  | x :: xs => xs.foldl max x

/-- `np.argmax`: index of the first occurrence of the maximum. -/
def argmaxFirst (l : List ℚ) : ℕ :=
  l.indexOf (npMax l)

/-- `LogisticRegression.predict` on a single feature vector: the class at
the argmax of the decision scores (`""` as junk for out-of-range). -/
def FittedLogReg.predict1 (m : FittedLogReg) (x : List ℚ) : String :=
  m.classes_.getD (argmaxFirst (decisionScores m x)) ""

/-! ## Pipeline and persisted state -/

/-- A fitted scikit-learn `Pipeline([("tfidf", ...), ("clf", ...)])`. -/
structure FittedPipeline where
  tfidf : FittedTfidf
  clf : FittedLogReg
  deriving DecidableEq

/-- A pipeline object as held by `ModelTrainer.pipeline`: freshly built
(unfitted) or fitted. -/
inductive PipelineState where
  | unfitted
  | fitted (m : FittedPipeline)
  deriving DecidableEq

/-! ## Predictor (`src/model/predictor.py`) -/

/-- `PredictionResult` dataclass.  `probabilites` models the Python dict
`{cls: round(prob*100, 1)}` as an association list in `classes_` order
(faithful to the dict whenever `classes_` is duplicate-free, which
`np.unique` guarantees). -/
structure PredictionResult where
  classe : String
  confiance : ℚ
  probabilites : List (String × ℚ)
  deriving DecidableEq

/-- Round half to even (Python's `round` tie rule). -/
def roundHalfEven (q : ℚ) : ℤ :=
  if q - ⌊q⌋ < 1/2 then ⌊q⌋
  else if 1/2 < q - ⌊q⌋ then ⌊q⌋ + 1
  else if 2 ∣ ⌊q⌋ then ⌊q⌋ else ⌊q⌋ + 1

/-- Python's `round(q, 1)`. -/
def pyRound1 (q : ℚ) : ℚ :=
  (roundHalfEven (q * 10) : ℚ) / 10

/-- Error message of `Predictor._check_loaded`. -/
def notLoadedMsg : String :=
  "Le modèle n'est pas chargé. Appelez .load() d'abord."

/-- Models scikit-learn's `NotFittedError` raised when an unfitted pipeline
is asked to predict. -/
def notFittedMsg : String :=
  "This Pipeline instance is not fitted yet."

/-- The serving-side `Predictor`, holding at most one loaded pipeline. -/
structure Predictor where
  _pipeline : Option PipelineState
  deriving DecidableEq

/-- `Predictor.is_loaded` property. -/
def Predictor.is_loaded (p : Predictor) : Bool :=
  p._pipeline.isSome

/-- `Predictor.predict`: check the model is loaded, transform the text,
read the predicted class and the probability vector, round everything to
one decimal (as percentages).  `d`, `sq`, `g` are the analytic parameters
of the embedded library (dampening, square root, exponential link). -/
def Predictor.predict (d : ℕ → ℚ) (sq g : ℚ → ℚ) (p : Predictor)
    (texte : String) : Except String PredictionResult :=
  match p._pipeline with
  | none => .error notLoadedMsg
  | some .unfitted => .error notFittedMsg
  | some (.fitted m) =>
      let x := m.tfidf.transform d sq texte
      let classe := m.clf.predict1 x
      let probasArray := m.clf.predictProba g x
      let probabilites :=
        List.zipWith (fun cls pr => (cls, pyRound1 (pr * 100)))
          m.clf.classes_ probasArray
      let confiance := pyRound1 (npMax probasArray * 100)
      .ok { classe := classe, confiance := confiance,
            probabilites := probabilites }

/-- `Predictor.classes` property: `_check_loaded()` then
`list(self._pipeline.classes_)` (an unfitted pipeline has no `classes_`
attribute, which raises). -/
def Predictor.classes (p : Predictor) : Except String (List String) :=
  match p._pipeline with
  | none => .error notLoadedMsg
  | some .unfitted => .error notFittedMsg
  | some (.fitted m) => .ok m.clf.classes_

/-! ## Model store (joblib file on disk) -/

/-- Durable storage: one serialized pipeline object per path. -/
abbrev FileSystem := List (String × PipelineState)

/-- `settings.model_path`. -/
def modelPath : String := "model/saved/classifier.joblib"

/-- Look an artifact up by path. -/
def fsLookup (fs : FileSystem) (p : String) : Option PipelineState :=
  (fs.find? (fun e => e.1 = p)).map Prod.snd

/-- `joblib.dump`: (over)write the artifact at a path. -/
def fsWrite (fs : FileSystem) (p : String) (v : PipelineState) : FileSystem :=
  (p, v) :: fs

/-- `Predictor.load`: fail with `FileNotFoundError` when no artifact exists
at `settings.model_path`, otherwise deserialize it into `self._pipeline`. -/
def Predictor.load (p : Predictor) (fs : FileSystem) :
    Except String Predictor :=
  match fsLookup fs modelPath with
  | none => .error ("Modèle introuvable : " ++ modelPath)
  | some ps => .ok { p with _pipeline := some ps }

/-! ## Trainer (`src/model/trainer.py`)
`train_test_split(..., stratify=y)` and `LogisticRegression.fit` are
scikit-learn calls; they are embedded through their documented failure
contracts: stratification refuses a class with fewer than 2 members (and
an empty dataset), and the solver refuses fewer than 2 distinct classes.
The successful optimization itself (LBFGS on floats) is the parameter
`fit` of `train`. -/

structure ModelTrainer where
  pipeline : Option PipelineState
  X_test : Option (List String)
  y_test : Option (List String)
  deriving DecidableEq

/-- Number of distinct labels (`np.unique(y).size`). -/
def distinctCount (y : List String) : ℕ :=
  y.toFinset.card

/-- Number of test rows for `test_size = 0.2` (scikit-learn takes the
ceiling for the test fraction). -/
def testCount (n : ℕ) : ℕ :=
  (n + 4) / 5

/-- `train_test_split(X, y, test_size=0.2, random_state=42, stratify=y)`:
fails on an empty dataset or when the least populated class has fewer than
2 members; otherwise splits deterministically (fixed seed).  Returns
`(X_train, X_test, y_train, y_test)`. -/
def trainTestSplit (X y : List String) :
    Except String (List String × List String × List String × List String) :=
  if y.isEmpty then
    .error "With n_samples=0, test_size=0.2 and train_size=None, the resulting train set will be empty."
  else if y.any (fun c => y.count c < 2) then
    .error "The least populated class in y has only 1 member, which is too few. The minimum number of groups for any class cannot be less than 2."
  else
    let k := testCount y.length
    .ok (X.drop k, X.take k, y.drop k, y.take k)

/-- `Pipeline.fit`: `LogisticRegression.fit` refuses fewer than 2 distinct
classes in the training labels; otherwise the optimizer (`fit`) produces
the fitted pipeline. -/
def pipelineFit (fit : List String → List String → FittedPipeline)
    (Xtr ytr : List String) : Except String FittedPipeline :=
  if distinctCount ytr < 2 then
    .error "This solver needs samples of at least 2 classes in the data, but the data contains only one class."
  else
    .ok (fit Xtr ytr)

/-- `ModelTrainer.train`: split, record the test fold, build the (still
unfitted) pipeline, then fit it.  The returned pair is the trainer's state
after the call together with the raised error, if any (mirroring Python's
in-place mutation up to the point where an exception propagates). -/
def ModelTrainer.train (fit : List String → List String → FittedPipeline)
    (t : ModelTrainer) (X y : List String) : ModelTrainer × Option String :=
  match trainTestSplit X y with
  | .error e => (t, some e)
  | .ok (Xtr, Xte, ytr, yte) =>
      let t1 : ModelTrainer :=
        { t with X_test := some Xte, y_test := some yte,
                 pipeline := some .unfitted }
      match pipelineFit fit Xtr ytr with
      | .error e => (t1, some e)
      | .ok m => ({ t1 with pipeline := some (.fitted m) }, none)

/-- Error message of `ModelTrainer.save` on an untrained trainer. -/
def notTrainedMsg : String :=
  "Le modèle n'a pas encore été entraîné. Appelez .train() d'abord."

/-- `ModelTrainer.save`: refuse when no pipeline exists, otherwise dump the
pipeline object at `settings.model_path`. -/
def ModelTrainer.save (t : ModelTrainer) (fs : FileSystem) :
    Except String FileSystem :=
  match t.pipeline with
  | none => .error notTrainedMsg
  | some ps => .ok (fsWrite fs modelPath ps)

/-! ## Data loader (`src/data/loader.py`) -/

/-- `CLASSES_VALIDES`. -/
def CLASSES_VALIDES : List String :=
  ["Information", "Réclamation", "Commande", "Urgence"]

/-- One CSV row restricted to the required columns (`None` models a null
cell). -/
structure Row where
  texte : Option String
  classe : Option String
  deriving DecidableEq

/-- A row with a null in a required column. -/
def rowNull (r : Row) : Bool :=
  r.texte.isNone || r.classe.isNone

/-- Warning text emitted for short texts. -/
def shortTextWarning : String :=
  "texte(s) très courts détectés (< 5 caractères). Vérifiez leur pertinence."

/-- `DataLoader._validate` on a frame that structurally has the required
columns: fail on nulls, then on labels outside `CLASSES_VALIDES`; texts
shorter than 5 characters only add a warning.  Returns the warnings. -/
def validate (df : List Row) : Except String (List String) :=
  if df.any rowNull then
    .error "Valeurs nulles détectées. Nettoyez le dataset avant l'entraînement."
  else if df.any (fun r => !(CLASSES_VALIDES.contains (r.classe.getD ""))) then
    .error "Classes inconnues dans le dataset."
  else if (df.filter (fun r => (r.texte.getD "").length < 5)).length > 0 then
    .ok [shortTextWarning]
  else
    .ok []

/-! ## Serving boundary (`src/api/app.py`, `src/api/routes.py`) -/

/-- `HealthResponse` schema. -/
structure HealthResponse where
  status : String
  modele_charge : Bool
  classes_disponibles : List String
  version : String
  deriving DecidableEq

/-- `GET /health`: guarded by `is_loaded`, so an unloaded predictor yields
a degraded response with an empty class list instead of an error. -/
def health (p : Predictor) (version : String) :
    Except String HealthResponse := do
  let cls ← if p.is_loaded then p.classes else pure []
  pure { status := if p.is_loaded then "ok" else "degraded",
         modele_charge := p.is_loaded,
         classes_disponibles := cls,
         version := version }

/-- The `lifespan` startup block: build a predictor, try to load the model,
and on `FileNotFoundError` keep serving in degraded mode with the unloaded
predictor stored in `app.state`. -/
def lifespanStartup (fs : FileSystem) : Predictor :=
  let predictor : Predictor := { _pipeline := none }
  match predictor.load fs with
  | .ok p' => p'
  | .error _ => predictor

/-! ## Claim theorems -/

/-- C3: on a `Predictor` on which `load()` has not completed
(`_pipeline` is still `None`), every call to `predict` fails with the
NotReady error from `_check_loaded` and never returns a
`PredictionResult`. -/
theorem claim_C3_predict_before_load_fails (p : Predictor)
    (hp : p._pipeline = none) (d : ℕ → ℚ) (sq g : ℚ → ℚ) (texte : String) :
    Predictor.predict d sq g p texte = .error notLoadedMsg := by
  simp [Predictor.predict, hp]

/-- Witness for C3 at a concrete unloaded predictor and text. -/
theorem claim_C3_witness :
    Predictor.predict (fun n => (n : ℚ)) id id { _pipeline := none }
      "Bonjour, avez-vous du lait ?" = .error notLoadedMsg :=
  claim_C3_predict_before_load_fails _ rfl _ _ _ _

/-- C9: `ModelTrainer.save` before `train` has produced a pipeline
(`pipeline is None`) raises the not-trained error and never writes an
artifact. -/
theorem claim_C9_save_before_train_fails (t : ModelTrainer)
    (ht : t.pipeline = none) (fs : FileSystem) :
    ModelTrainer.save t fs = .error notTrainedMsg ∧
      ∀ fs', ModelTrainer.save t fs ≠ .ok fs' := by
  refine ⟨?_, ?_⟩ <;> simp [ModelTrainer.save, ht]

/-- Witness for C9 on a fresh trainer and an empty store. -/
theorem claim_C9_witness :
    ModelTrainer.save { pipeline := none, X_test := none, y_test := none } []
        = .error notTrainedMsg ∧
      ∀ fs', ModelTrainer.save
        { pipeline := none, X_test := none, y_test := none } [] ≠ .ok fs' :=
  claim_C9_save_before_train_fails _ rfl _

/-- C7: when no artifact exists at the model path, `Predictor.load` fails
with the FileNotFound error, and the `lifespan` startup catches it and
leaves the process serving with an unloaded predictor
(`is_loaded = false`) instead of crashing. -/
theorem claim_C7_missing_artifact_degraded_start (fs : FileSystem)
    (h : fsLookup fs modelPath = none) :
    Predictor.load { _pipeline := none } fs
        = .error ("Modèle introuvable : " ++ modelPath) ∧
      (lifespanStartup fs).is_loaded = false := by
  refine ⟨?_, ?_⟩ <;>
    simp [Predictor.load, lifespanStartup, Predictor.is_loaded, h]

/-- Witness for C7 on the empty file system. -/
theorem claim_C7_witness :
    Predictor.load { _pipeline := none } []
        = .error ("Modèle introuvable : " ++ modelPath) ∧
      (lifespanStartup []).is_loaded = false :=
  claim_C7_missing_artifact_degraded_start [] rfl

/-- C10: `is_loaded` is false exactly when no pipeline has been loaded,
and on an unloaded predictor the `classes` accessor fails with the same
NotReady error as `predict` (never an empty list), while the `/health`
endpoint, which guards the accessor with `is_loaded`, answers degraded
with an empty class list. -/
theorem claim_C10_classes_accessor_guard (p : Predictor) (d : ℕ → ℚ)
    (sq g : ℚ → ℚ) (texte v : String) :
    (p.is_loaded = false ↔ p._pipeline = none) ∧
      (p._pipeline = none →
        Predictor.classes p = .error notLoadedMsg ∧
        Predictor.predict d sq g p texte = .error notLoadedMsg ∧
        health p v = .ok { status := "degraded", modele_charge := false,
                           classes_disponibles := [], version := v }) := by
  constructor
  · cases hp : p._pipeline <;> simp [Predictor.is_loaded, hp]
  · intro hp
    refine ⟨?_, ?_, ?_⟩
    · simp [Predictor.classes, hp]
    · simp [Predictor.predict, hp]
    · simp only [health, Predictor.is_loaded, hp, Option.isSome_none,
        Bool.false_eq_true, if_false]
      rfl

/-- Witness for C10 at a concrete unloaded predictor. -/
theorem claim_C10_witness :
    (Predictor.is_loaded { _pipeline := none } = false ↔
        Predictor._pipeline { _pipeline := none } = none) ∧
      (Predictor._pipeline { _pipeline := none } = none →
        Predictor.classes { _pipeline := none } = .error notLoadedMsg ∧
        Predictor.predict (fun n => (n : ℚ)) id id { _pipeline := none }
            "Commande de riz" = .error notLoadedMsg ∧
        health { _pipeline := none } "1.0.0"
            = .ok { status := "degraded", modele_charge := false,
                    classes_disponibles := [], version := "1.0.0" }) :=
  claim_C10_classes_accessor_guard _ _ _ _ _ _

/-- C6: a dataset accepted by `DataLoader._validate` has no null text or
label and every label lies in `CLASSES_VALIDES`; conversely, on a dataset
that passes the null and label checks, validation always succeeds, and
rows with texts shorter than 5 characters only add a non-fatal warning. -/
theorem claim_C6_loader_validation (df : List Row) :
    (∀ ws, validate df = .ok ws →
      ∀ r ∈ df, r.texte.isSome ∧ ∃ c, r.classe = some c ∧ c ∈ CLASSES_VALIDES) ∧
      ((∀ r ∈ df, rowNull r = false ∧
          CLASSES_VALIDES.contains (r.classe.getD "") = true) →
        (∃ ws, validate df = .ok ws) ∧
          ((∃ r ∈ df, (r.texte.getD "").length < 5) →
            validate df = .ok [shortTextWarning])) := by
  constructor
  · intro ws hok r hr
    have h1 : df.any rowNull = false := by
      by_contra h
      have h' : df.any rowNull = true := by simpa using h
      unfold validate at hok
      rw [if_pos h'] at hok
      exact Except.noConfusion hok
    have h2 :
        (df.any fun r => !(CLASSES_VALIDES.contains (r.classe.getD ""))) = false := by
      by_contra h
      have h' :
          (df.any fun r => !(CLASSES_VALIDES.contains (r.classe.getD ""))) = true := by
        simpa using h
      unfold validate at hok
      rw [if_neg (by simp [h1]), if_pos h'] at hok
      exact Except.noConfusion hok
    have hnull : rowNull r = false := by
      have := List.any_eq_false.mp h1
      simpa using this r hr
    have hcls : CLASSES_VALIDES.contains (r.classe.getD "") = true := by
      have := List.any_eq_false.mp h2
      simpa using this r hr
    rcases r with ⟨t, c⟩
    cases t with
    | none => simp [rowNull] at hnull
    | some t =>
      cases c with
      | none => simp [rowNull] at hnull
      | some c =>
        refine ⟨rfl, c, rfl, ?_⟩
        simpa using hcls
  · intro hval
    have h1 : df.any rowNull = false := by
      rw [List.any_eq_false]
      intro r hr
      simp [(hval r hr).1]
    have h2 :
        (df.any fun r => !(CLASSES_VALIDES.contains (r.classe.getD ""))) = false := by
      rw [List.any_eq_false]
      intro r hr
      simpa using (hval r hr).2
    have hno1 : ¬(df.any rowNull = true) := by simp [h1]
    have hno2 :
        ¬((df.any fun r => !(CLASSES_VALIDES.contains (r.classe.getD ""))) = true) := by
      rw [h2]
      simp
    constructor
    · unfold validate
      rw [if_neg hno1, if_neg hno2]
      split_ifs <;> exact ⟨_, rfl⟩
    · rintro ⟨r, hr, hshort⟩
      have h3 : (df.filter (fun r => (r.texte.getD "").length < 5)).length > 0 := by
        have : r ∈ df.filter (fun r => (r.texte.getD "").length < 5) :=
          List.mem_filter.mpr ⟨hr, by simpa using hshort⟩
        exact List.length_pos.mpr (List.ne_nil_of_mem this)
      unfold validate
      rw [if_neg hno1, if_neg hno2, if_pos h3]

/-- Witness for C6 on a concrete dataset containing a short (2-character)
text: validation succeeds with only a warning, and its guarantees hold. -/
theorem claim_C6_witness :
    (∀ ws, validate [⟨some "ab", some "Urgence"⟩] = .ok ws →
      ∀ r ∈ [(⟨some "ab", some "Urgence"⟩ : Row)],
        r.texte.isSome ∧ ∃ c, r.classe = some c ∧ c ∈ CLASSES_VALIDES) ∧
      ((∀ r ∈ [(⟨some "ab", some "Urgence"⟩ : Row)], rowNull r = false ∧
          CLASSES_VALIDES.contains (r.classe.getD "") = true) →
        (∃ ws, validate [⟨some "ab", some "Urgence"⟩] = .ok ws) ∧
          ((∃ r ∈ [(⟨some "ab", some "Urgence"⟩ : Row)],
              (r.texte.getD "").length < 5) →
            validate [⟨some "ab", some "Urgence"⟩] = .ok [shortTextWarning])) :=
  claim_C6_loader_validation _

/-- The distinct labels of a suffix are among the distinct labels of the
full list. -/
lemma distinctCount_drop_le (y : List String) (k : ℕ) :
    distinctCount (y.drop k) ≤ distinctCount y := by
  unfold distinctCount
  apply Finset.card_le_card
  intro a ha
  rw [List.mem_toFinset] at ha ⊢
  exact List.drop_subset k y ha

/-- C2: after `ModelTrainer.save` persists the trained pipeline,
`Predictor.load` from the same location reconstructs it exactly, and the
loaded predictor's prediction (category, confidence and per-category
probabilities) for any text is identical to that of a predictor serving
the original pipeline. -/
theorem claim_C2_save_load_roundtrip (t : ModelTrainer) (ps : PipelineState)
    (ht : t.pipeline = some ps) (fs : FileSystem) (d : ℕ → ℚ) (sq g : ℚ → ℚ)
    (texte : String) :
    ∃ fs', ModelTrainer.save t fs = .ok fs' ∧
      ∃ p', Predictor.load { _pipeline := none } fs' = .ok p' ∧
        Predictor.predict d sq g p' texte
          = Predictor.predict d sq g { _pipeline := some ps } texte := by
  refine ⟨fsWrite fs modelPath ps, by simp [ModelTrainer.save, ht], ?_⟩
  refine ⟨{ _pipeline := some ps }, ?_, rfl⟩
  simp [Predictor.load, fsLookup, fsWrite]

/-- A small concrete fitted pipeline used by concrete witnesses. -/
def pipelineW : FittedPipeline :=
  { tfidf := { vocab := ["urgent", "paiement"], idf := [2, 1] },
    clf := { classes_ := ["Commande", "Urgence"], coef := [[1, 0], [2, 0]],
             intercept := [0, 0] } }

/-- Witness for C2 with a concrete trained trainer and an empty store. -/
theorem claim_C2_witness :
    ∃ fs', ModelTrainer.save
        { pipeline := some (.fitted pipelineW), X_test := none, y_test := none }
        [] = .ok fs' ∧
      ∃ p', Predictor.load { _pipeline := none } fs' = .ok p' ∧
        Predictor.predict (fun n => (n : ℚ)) id id p'
            "Urgent ! Le paiement par Wave ne fonctionne pas."
          = Predictor.predict (fun n => (n : ℚ)) id id
            { _pipeline := some (.fitted pipelineW) }
            "Urgent ! Le paiement par Wave ne fonctionne pas." :=
  claim_C2_save_load_roundtrip _ _ rfl _ _ _ _ _

/-- C4: a training dataset with fewer than 2 distinct categories, or with
some category having fewer than 2 examples, makes `ModelTrainer.train`
fail (stratified split refuses a singleton class; the solver refuses a
single distinct class), and the trainer never ends up with a fitted
pipeline. -/
theorem claim_C4_insufficient_data_fails
    (fit : List String → List String → FittedPipeline) (t : ModelTrainer)
    (h0 : t.pipeline = none) (X y : List String)
    (hbad : distinctCount y < 2 ∨ ∃ c ∈ y, y.count c < 2) :
    (ModelTrainer.train fit t X y).2.isSome = true ∧
      ∀ m, (ModelTrainer.train fit t X y).1.pipeline ≠ some (.fitted m) := by
  by_cases hemp : y.isEmpty = true
  · have he : trainTestSplit X y = .error
        "With n_samples=0, test_size=0.2 and train_size=None, the resulting train set will be empty." := by
      unfold trainTestSplit
      rw [if_pos hemp]
    unfold ModelTrainer.train
    rw [he]
    exact ⟨rfl, by simp [h0]⟩
  by_cases hcnt : (y.any fun c => y.count c < 2) = true
  · have he : trainTestSplit X y = .error
        "The least populated class in y has only 1 member, which is too few. The minimum number of groups for any class cannot be less than 2." := by
      unfold trainTestSplit
      rw [if_neg hemp, if_pos hcnt]
    unfold ModelTrainer.train
    rw [he]
    exact ⟨rfl, by simp [h0]⟩
  · have hd : distinctCount y < 2 := by
      rcases hbad with hd | ⟨c, hc, hlt⟩
      · exact hd
      · exact absurd (List.any_eq_true.mpr ⟨c, hc, by simpa using hlt⟩) hcnt
    have he : trainTestSplit X y
        = .ok (X.drop (testCount y.length), X.take (testCount y.length),
               y.drop (testCount y.length), y.take (testCount y.length)) := by
      unfold trainTestSplit
      rw [if_neg hemp, if_neg hcnt]
    have hfit : pipelineFit fit (X.drop (testCount y.length))
        (y.drop (testCount y.length)) = .error
        "This solver needs samples of at least 2 classes in the data, but the data contains only one class." := by
      unfold pipelineFit
      rw [if_pos (lt_of_le_of_lt (distinctCount_drop_le y _) hd)]
    unfold ModelTrainer.train
    rw [he]
    simp only [hfit]
    exact ⟨rfl, by simp⟩

/-- Witness for C4: two categories with one example each (stratification
impossible); training fails and no fitted pipeline appears. -/
theorem claim_C4_witness :
    (ModelTrainer.train (fun _ _ => pipelineW)
        { pipeline := none, X_test := none, y_test := none }
        ["Je veux commander 5 cartons d'eau.", "Urgent ! Système en panne !"]
        ["Commande", "Urgence"]).2.isSome = true ∧
      ∀ m, (ModelTrainer.train (fun _ _ => pipelineW)
        { pipeline := none, X_test := none, y_test := none }
        ["Je veux commander 5 cartons d'eau.", "Urgent ! Système en panne !"]
        ["Commande", "Urgence"]).1.pipeline ≠ some (.fitted m) :=
  claim_C4_insufficient_data_fails _ _ rfl _ _
    (Or.inr ⟨"Commande", by decide, by decide⟩)

/-- The sparse tf-idf entries of a text whose counts are all zero form the
all-zero vector. -/
lemma zipWith_tf_zero (d : ℕ → ℚ) (cs : List ℕ) (ws : List ℚ)
    (h : ∀ c ∈ cs, c = 0) :
    List.zipWith (fun (c : ℕ) (w : ℚ) => if c = 0 then 0 else d c * w) cs ws
      = List.replicate (min cs.length ws.length) 0 := by
  induction cs generalizing ws with
  | nil => simp
  | cons c cs ih =>
    cases ws with
    | nil => simp
    | cons w ws =>
      have hc : c = 0 := h c (by simp)
      simp [hc, ih ws (fun a ha => h a (by simp [ha])), List.replicate,
        Nat.succ_min_succ]

/-- Raw tf-idf vector of an out-of-vocabulary text. -/
lemma tfidfRaw_zero (v : FittedTfidf) (d : ℕ → ℚ) (texte : String)
    (h : ∀ t ∈ v.vocab, (ngrams texte).count t = 0) :
    tfidfRaw v d texte = List.replicate (min v.vocab.length v.idf.length) 0 := by
  unfold tfidfRaw
  have hlen : (rawCounts v texte).length = v.vocab.length := by
    simp [rawCounts]
  rw [zipWith_tf_zero d _ _ ?_, hlen]
  intro c hc
  obtain ⟨t, ht, rfl⟩ := List.mem_map.mp hc
  exact h t ht

/-- The all-zero vector has zero squared norm. -/
lemma sumSq_replicate_zero (n : ℕ) : sumSq (List.replicate n 0) = 0 := by
  simp [sumSq]

/-- `transform` of an out-of-vocabulary text is the all-zero vector: the
zero-norm guard of the L2 normalization returns it unchanged (no division
by zero happens). -/
lemma transform_zero (v : FittedTfidf) (d : ℕ → ℚ) (sq : ℚ → ℚ)
    (texte : String) (h : ∀ t ∈ v.vocab, (ngrams texte).count t = 0) :
    v.transform d sq texte
      = List.replicate (min v.vocab.length v.idf.length) 0 := by
  unfold FittedTfidf.transform l2normalize
  rw [tfidfRaw_zero v d texte h, if_pos (sumSq_replicate_zero _)]

/-- Dot product with the all-zero vector vanishes. -/
lemma dot_replicate_zero (w : List ℚ) (n : ℕ) :
    dot w (List.replicate n 0) = 0 := by
  induction w generalizing n with
  | nil => simp [dot]
  | cons a w ih =>
    cases n with
    | zero => simp [dot]
    | succ n =>
      have := ih n
      simp [dot, List.replicate_succ] at this ⊢
      exact this

/-- Decision scores on the all-zero vector collapse to the intercepts. -/
lemma decisionScores_replicate_zero (m : FittedLogReg) (n : ℕ)
    (hlen : m.coef.length = m.intercept.length) :
    decisionScores m (List.replicate n 0) = m.intercept := by
  unfold decisionScores
  have : ∀ (ws : List (List ℚ)) (bs : List ℚ), ws.length = bs.length →
      List.zipWith (fun w b => dot w (List.replicate n 0) + b) ws bs = bs := by
    intro ws
    induction ws with
    | nil => intro bs h; cases bs with | nil => simp | cons b bs => simp at h
    | cons w ws ih =>
      intro bs h
      cases bs with
      | nil => simp at h
      | cons b bs =>
        rw [List.zipWith_cons_cons, dot_replicate_zero, zero_add,
          ih bs (by simpa using h)]
  exact this m.coef m.intercept hlen

/-- C5: with a loaded fitted pipeline, `predict` is total — it returns a
`PredictionResult` for every input text — and for a text with zero
recognized vocabulary terms the feature vector is all-zero (the zero-norm
guard avoids any division by zero) and the probabilities fall back to the
bias-only (prior) distribution `softmax` of the intercepts. -/
theorem claim_C5_inference_total_and_oov_fallback (m : FittedPipeline)
    (d : ℕ → ℚ) (sq g : ℚ → ℚ)
    (hlen : m.clf.coef.length = m.clf.intercept.length) :
    (∀ texte, ∃ r,
        Predictor.predict d sq g { _pipeline := some (.fitted m) } texte
          = .ok r) ∧
      ∀ texte, (∀ t ∈ m.tfidf.vocab, (ngrams texte).count t = 0) →
        m.tfidf.transform d sq texte
            = List.replicate (min m.tfidf.vocab.length m.tfidf.idf.length) 0 ∧
          m.clf.predictProba g (m.tfidf.transform d sq texte)
            = softmax g m.clf.intercept := by
  constructor
  · intro texte
    exact ⟨_, rfl⟩
  · intro texte h
    have h1 := transform_zero m.tfidf d sq texte h
    refine ⟨h1, ?_⟩
    rw [h1]
    unfold FittedLogReg.predictProba
    rw [decisionScores_replicate_zero m.clf _ hlen]

/-- Witness for C5: a text sharing no token with the vocabulary of a
concrete pipeline. -/
theorem claim_C5_witness :
    (∃ r, Predictor.predict (fun n => (n : ℚ)) id id
        { _pipeline := some (.fitted pipelineW) } "Bonjour, avez-vous du lait ?"
          = .ok r) ∧
      (pipelineW.tfidf.transform (fun n => (n : ℚ)) id
          "Bonjour, avez-vous du lait ?"
          = List.replicate
              (min pipelineW.tfidf.vocab.length pipelineW.tfidf.idf.length) 0 ∧
        pipelineW.clf.predictProba id
            (pipelineW.tfidf.transform (fun n => (n : ℚ)) id
              "Bonjour, avez-vous du lait ?")
          = softmax id pipelineW.clf.intercept) :=
  ⟨(claim_C5_inference_total_and_oov_fallback pipelineW (fun n => (n : ℚ))
      id id rfl).1 _,
    (claim_C5_inference_total_and_oov_fallback pipelineW (fun n => (n : ℚ))
      id id rfl).2 "Bonjour, avez-vous du lait ?" (by decide)⟩

/-- Rounding half to even moves a rational by at most `1/2`. -/
lemma roundHalfEven_abs_le (q : ℚ) : |(roundHalfEven q : ℚ) - q| ≤ 1/2 := by
  unfold roundHalfEven
  have h0 : (⌊q⌋ : ℚ) ≤ q := Int.floor_le q
  have h1 : q < ⌊q⌋ + 1 := Int.lt_floor_add_one q
  split_ifs with ha hb hc <;>
    · rw [abs_le]
      push_cast
      constructor <;> linarith

/-- Rounding half to even is monotone. -/
lemma roundHalfEven_mono {x y : ℚ} (hxy : x ≤ y) :
    roundHalfEven x ≤ roundHalfEven y := by
  have hf := Int.floor_le_floor hxy
  rcases lt_or_eq_of_le hf with hf' | hf'
  · have hL : roundHalfEven x ≤ ⌊x⌋ + 1 := by
      unfold roundHalfEven
      split_ifs <;> omega
    have hR : ⌊y⌋ ≤ roundHalfEven y := by
      unfold roundHalfEven
      split_ifs <;> omega
    omega
  · unfold roundHalfEven
    rw [hf']
    split_ifs <;> first | omega | (exfalso; linarith)

/-- Python's `round(·, 1)` moves a rational by at most `0.05`. -/
lemma pyRound1_abs_le (q : ℚ) : |pyRound1 q - q| ≤ 1/20 := by
  unfold pyRound1
  have h := roundHalfEven_abs_le (q * 10)
  rw [abs_le] at h ⊢
  obtain ⟨hl, hr⟩ := h
  constructor <;> linarith

/-- Python's `round(·, 1)` is monotone. -/
lemma pyRound1_mono : Monotone pyRound1 := by
  intro x y h
  unfold pyRound1
  have h10 : x * 10 ≤ y * 10 := by linarith
  have := roundHalfEven_mono h10
  have hc : ((roundHalfEven (x * 10) : ℤ) : ℚ)
      ≤ ((roundHalfEven (y * 10) : ℤ) : ℚ) := by exact_mod_cast this
  linarith

/-- `foldl max` stays among the folded elements. -/
lemma foldl_max_mem (x : ℚ) (xs : List ℚ) : xs.foldl max x ∈ x :: xs := by
  induction xs generalizing x with
  | nil => simp
  | cons a as ih =>
    rcases List.mem_cons.mp (ih (max x a)) with h | h
    · rcases max_choice x a with h' | h' <;>
        · rw [List.foldl_cons, h, h']
          simp
    · rw [List.foldl_cons]
      exact List.mem_cons.mpr (Or.inr (List.mem_cons.mpr (Or.inr h)))

/-- Every folded element is at most `foldl max`. -/
lemma le_foldl_max (x : ℚ) (xs : List ℚ) :
    ∀ a ∈ x :: xs, a ≤ xs.foldl max x := by
  induction xs generalizing x with
  | nil => simp
  | cons b bs ih =>
    intro a ha
    rw [List.foldl_cons]
    rcases List.mem_cons.mp ha with rfl | ha'
    · exact le_trans (le_max_left a b) (ih (max a b) _ (by simp))
    · rcases List.mem_cons.mp ha' with rfl | ha''
      · exact le_trans (le_max_right x a) (ih (max x a) _ (by simp))
      · exact ih (max x b) a (by simp [ha''])

/-- `foldl max` commutes with a monotone map. -/
lemma foldl_max_map (f : ℚ → ℚ) (hf : Monotone f) (x : ℚ) (xs : List ℚ) :
    (xs.map f).foldl max (f x) = f (xs.foldl max x) := by
  induction xs generalizing x with
  | nil => simp
  | cons a as ih =>
    rw [List.map_cons, List.foldl_cons, List.foldl_cons, ← hf.map_max, ih]

/-- `np.max` commutes with a monotone map on a nonempty array. -/
lemma npMax_map (f : ℚ → ℚ) (hf : Monotone f) (l : List ℚ) (hl : l ≠ []) :
    npMax (l.map f) = f (npMax l) := by
  cases l with
  | nil => exact absurd rfl hl
  | cons x xs =>
    rw [List.map_cons]
    exact foldl_max_map f hf x xs

/-- `np.max` of a nonempty array is one of its entries. -/
lemma npMax_mem (l : List ℚ) (hl : l ≠ []) : npMax l ∈ l := by
  cases l with
  | nil => exact absurd rfl hl
  | cons x xs => exact foldl_max_mem x xs

/-- Every entry is at most `np.max`. -/
lemma le_npMax (l : List ℚ) : ∀ a ∈ l, a ≤ npMax l := by
  cases l with
  | nil => simp
  | cons x xs => exact le_foldl_max x xs

/-- Summing a pointwise quotient divides the sum. -/
lemma sum_map_div (l : List ℚ) (f : ℚ → ℚ) (s : ℚ) :
    (l.map (fun x => f x / s)).sum = (l.map f).sum / s := by
  induction l with
  | nil => simp
  | cons a as ih =>
    rw [List.map_cons, List.sum_cons, ih, List.map_cons, List.sum_cons,
      add_div]

/-- Softmax probabilities over a positive link sum to exactly 1. -/
lemma softmax_sum (g : ℚ → ℚ) (z : List ℚ) (hz : z ≠ [])
    (hg : ∀ x ∈ z, 0 < g x) : (softmax g z).sum = 1 := by
  unfold softmax
  have hpos : 0 < (z.map g).sum := by
    apply List.sum_pos
    · intro x hx
      obtain ⟨a, ha, rfl⟩ := List.mem_map.mp hx
      exact hg a ha
    · simpa using hz
  rw [sum_map_div]
  exact div_self (ne_of_gt hpos)

/-- Sum of absolute values of a uniformly bounded map. -/
lemma abs_sum_map_le (l : List ℚ) (f : ℚ → ℚ) (C : ℚ)
    (h : ∀ x, |f x| ≤ C) : |(l.map f).sum| ≤ l.length * C := by
  induction l with
  | nil => simp
  | cons a as ih =>
    calc |((a :: as).map f).sum| = |f a + (as.map f).sum| := by
          rw [List.map_cons, List.sum_cons]
      _ ≤ |f a| + |(as.map f).sum| := abs_add _ _
      _ ≤ C + as.length * C := add_le_add (h a) ih
      _ = (as.length + 1) * C := by ring
      _ = (a :: as).length * C := by
          rw [List.length_cons]
          push_cast
          ring

/-- Decompose the sum of rounded percentages into rounding errors plus the
exact percentage mass. -/
lemma sum_map_round_split (l : List ℚ) :
    (l.map (fun q => pyRound1 (q * 100))).sum
      = (l.map (fun q => pyRound1 (q * 100) - q * 100)).sum + 100 * l.sum := by
  induction l with
  | nil => simp
  | cons a as ih =>
    rw [List.map_cons, List.sum_cons, ih, List.map_cons, List.sum_cons,
      List.sum_cons]
    ring

/-- The values of the zipped probability dictionary are the mapped
probabilities, provided classes and probabilities align. -/
lemma zipWith_pair_snd (f : ℚ → ℚ) (cs : List String) (ps : List ℚ)
    (h : cs.length = ps.length) :
    (List.zipWith (fun c p => (c, f p)) cs ps).map Prod.snd = ps.map f := by
  induction cs generalizing ps with
  | nil =>
    cases ps with
    | nil => simp
    | cons p ps => simp at h
  | cons c cs ih =>
    cases ps with
    | nil => simp at h
    | cons p ps =>
      rw [List.zipWith_cons_cons, List.map_cons, List.map_cons,
        ih ps (by simpa using h)]

/-- Explicit form of `Predictor.predict` on a loaded fitted pipeline. -/
lemma predict_fitted_eq (m : FittedPipeline) (d : ℕ → ℚ) (sq g : ℚ → ℚ)
    (texte : String) :
    Predictor.predict d sq g { _pipeline := some (.fitted m) } texte
      = .ok { classe := m.clf.predict1 (m.tfidf.transform d sq texte),
              confiance := pyRound1
                (npMax (m.clf.predictProba g
                  (m.tfidf.transform d sq texte)) * 100),
              probabilites := List.zipWith
                (fun cls pr => (cls, pyRound1 (pr * 100)))
                m.clf.classes_
                (m.clf.predictProba g (m.tfidf.transform d sq texte)) } := rfl

/-- Rounded percentages over a 4-entry distribution summing to 1 sum to
100 within `±0.2`. -/
lemma probs_sum_bound (cs : List String) (P : List ℚ) (hc : cs.length = 4)
    (hP : P.length = 4) (hsum : P.sum = 1) :
    |((List.zipWith (fun cls pr => (cls, pyRound1 (pr * 100))) cs P).map
        Prod.snd).sum - 100| ≤ 1/5 := by
  rw [zipWith_pair_snd _ _ _ (by rw [hc, hP]), sum_map_round_split, hsum]
  have hb := abs_sum_map_le P (fun q => pyRound1 (q * 100) - q * 100) (1/20)
    (fun q => pyRound1_abs_le (q * 100))
  rw [hP] at hb
  calc |(P.map (fun q => pyRound1 (q * 100) - q * 100)).sum + 100 * 1 - 100|
      = |(P.map (fun q => pyRound1 (q * 100) - q * 100)).sum| := by
        rw [mul_one, add_sub_cancel_right]
    _ ≤ ((4 : ℕ) : ℚ) * (1/20) := hb
    _ ≤ 1/5 := by norm_num

/-- The rounded maximum probability equals the maximum of the rounded
per-category probabilities. -/
lemma confidence_eq_max (cs : List String) (P : List ℚ)
    (h : cs.length = P.length) (hne : P ≠ []) :
    pyRound1 (npMax P * 100)
      = npMax ((List.zipWith (fun cls pr => (cls, pyRound1 (pr * 100))) cs
          P).map Prod.snd) := by
  rw [zipWith_pair_snd _ _ _ h]
  have hmono : Monotone (fun q : ℚ => pyRound1 (q * 100)) := by
    intro a b hab
    exact pyRound1_mono (by linarith)
  rw [npMax_map _ hmono P hne]

/-- C1: on a loaded fitted pipeline with the four fixed categories and a
positive softmax link, `predict` returns a result whose per-category
percentages (rounded to one decimal) sum to 100 within `±0.2`, and whose
reported confidence equals the maximum of those per-category
percentages. -/
theorem claim_C1_probability_sum_and_confidence (m : FittedPipeline)
    (d : ℕ → ℚ) (sq g : ℚ → ℚ) (texte : String)
    (hg : ∀ z, 0 < g z)
    (hcls : m.clf.classes_.length = 4)
    (hcoef : m.clf.coef.length = 4) (hint : m.clf.intercept.length = 4) :
    ∃ r, Predictor.predict d sq g { _pipeline := some (.fitted m) } texte
        = .ok r ∧
      |(r.probabilites.map Prod.snd).sum - 100| ≤ 1/5 ∧
      r.confiance = npMax (r.probabilites.map Prod.snd) := by
  have hzlen : (decisionScores m.clf (m.tfidf.transform d sq texte)).length
      = 4 := by
    unfold decisionScores
    simp [hcoef, hint]
  have hzne : decisionScores m.clf (m.tfidf.transform d sq texte) ≠ [] := by
    intro h
    rw [h] at hzlen
    simp at hzlen
  have hPlen : (m.clf.predictProba g (m.tfidf.transform d sq texte)).length
      = 4 := by
    unfold FittedLogReg.predictProba softmax
    rw [List.length_map, hzlen]
  have hPne : m.clf.predictProba g (m.tfidf.transform d sq texte) ≠ [] := by
    intro h
    rw [h] at hPlen
    simp at hPlen
  have hPsum : (m.clf.predictProba g (m.tfidf.transform d sq texte)).sum
      = 1 :=
    softmax_sum g (decisionScores m.clf (m.tfidf.transform d sq texte)) hzne
      (fun t _ => hg t)
  refine ⟨_, predict_fitted_eq m d sq g texte, ?_, ?_⟩
  · exact probs_sum_bound m.clf.classes_ _ hcls hPlen hPsum
  · exact confidence_eq_max m.clf.classes_ _ (by rw [hcls, hPlen]) hPne

/-- A concrete fitted pipeline over the four categories, for witnesses. -/
def pipeline4W : FittedPipeline :=
  { tfidf := { vocab := ["urgent"], idf := [1] },
    clf := { classes_ := ["Commande", "Information", "Réclamation", "Urgence"],
             coef := [[1], [0], [0], [2]], intercept := [0, 0, 0, 0] } }

/-- Witness for C1 at a concrete pipeline, text and positive link. -/
theorem claim_C1_witness :
    ∃ r, Predictor.predict (fun n => (n : ℚ)) id (fun _ => 1)
        { _pipeline := some (.fitted pipeline4W) }
        "Urgent ! Le paiement par Wave ne fonctionne pas." = .ok r ∧
      |(r.probabilites.map Prod.snd).sum - 100| ≤ 1/5 ∧
      r.confiance = npMax (r.probabilites.map Prod.snd) :=
  claim_C1_probability_sum_and_confidence pipeline4W (fun n => (n : ℚ)) id
    (fun _ => 1) "Urgent ! Le paiement par Wave ne fonctionne pas."
    (fun _ => one_pos) rfl rfl rfl

/-- `List.indexOf` is the least index holding the value. -/
lemma indexOf_le_of_get_eq (l : List ℚ) (a : ℚ) :
    ∀ (i : ℕ) (hi : i < l.length), l.get ⟨i, hi⟩ = a → l.indexOf a ≤ i := by
  induction l with
  | nil =>
    intro i hi
    simp at hi
  | cons b l ih =>
    intro i hi hget
    by_cases hba : b = a
    · subst hba
      rw [List.indexOf_cons_self]
      omega
    · rw [List.indexOf_cons_ne l hba]
      cases i with
      | zero =>
        simp only [List.get] at hget
        exact absurd hget hba
      | succ i =>
        have := ih i (by simpa using hi) (by simpa using hget)
        omega

/-- A concrete positive strictly monotone rational link, witnessing the
analytic hypotheses placed on the softmax link. -/
def gW (z : ℚ) : ℚ :=
  if 0 ≤ z then z + 2 else 1 / (1 - z)

/-- `gW` is everywhere positive. -/
lemma gW_pos (z : ℚ) : 0 < gW z := by
  unfold gW
  split_ifs with h
  · linarith
  · exact div_pos one_pos (by linarith [lt_of_not_le h])

/-- `gW` is strictly monotone. -/
lemma gW_strictMono : StrictMono gW := by
  intro a b hab
  unfold gW
  by_cases ha : 0 ≤ a
  · rw [if_pos ha, if_pos (le_trans ha (le_of_lt hab))]
    linarith
  · by_cases hb : 0 ≤ b
    · rw [if_neg ha, if_pos hb]
      have h1 : (1 : ℚ) < 1 - a := by linarith [lt_of_not_le ha]
      have h2 : 1 / (1 - a) < 1 := by
        rw [div_lt_one (by linarith)]
        exact h1
      linarith
    · rw [if_neg ha, if_neg hb]
      have hb0 : (0 : ℚ) < 1 - b := by linarith [lt_of_not_le hb]
      exact one_div_lt_one_div_of_lt hb0 (by linarith)

/-- C8: when two or more categories receive exactly equal maximal
probability, `predict` (argmax with `np.argmax`'s first-occurrence rule
over the sorted, duplicate-free `classes_`) returns the category sorting
first lexicographically among the tied ones: it is one of the categories
attaining the maximum and is `≤` every category attaining it. -/
theorem claim_C8_tie_break_lexicographic (m : FittedLogReg) (g : ℚ → ℚ)
    (x : List ℚ) (hg : ∀ z, 0 < g z) (hmono : StrictMono g)
    (hsort : m.classes_.Sorted (· < ·))
    (hlc : m.classes_.length = m.coef.length)
    (hli : m.intercept.length = m.coef.length)
    (hne : m.coef ≠ [])
    (htie : 2 ≤ ((m.predictProba g x).filter
        (fun p => p = npMax (m.predictProba g x))).length) :
    (∃ i, i < m.classes_.length ∧
        (m.predictProba g x).getD i 0 = npMax (m.predictProba g x) ∧
        m.classes_.getD i "" = m.predict1 x) ∧
      ∀ i, i < m.classes_.length →
        (m.predictProba g x).getD i 0 = npMax (m.predictProba g x) →
        m.predict1 x ≤ m.classes_.getD i "" := by
  have hzlen : (decisionScores m x).length = m.coef.length := by
    unfold decisionScores
    rw [List.length_zipWith, hli, min_self]
  have hzne : decisionScores m x ≠ [] := by
    intro h
    exact hne (List.length_eq_zero.mp (by rw [← hzlen, h, List.length_nil]))
  have hSpos : 0 < ((decisionScores m x).map g).sum := by
    apply List.sum_pos
    · intro t ht
      obtain ⟨a, _, rfl⟩ := List.mem_map.mp ht
      exact hg a
    · simpa using hzne
  have hφmono : StrictMono
      (fun c : ℚ => g c / ((decisionScores m x).map g).sum) := by
    intro a b hab
    exact (div_lt_div_iff_of_pos_right hSpos).mpr (hmono hab)
  have hPmap : m.predictProba g x
      = (decisionScores m x).map
          (fun c => g c / ((decisionScores m x).map g).sum) := rfl
  have hPlen : (m.predictProba g x).length = (decisionScores m x).length := by
    rw [hPmap, List.length_map]
  have hmax : npMax (m.predictProba g x)
      = g (npMax (decisionScores m x))
          / ((decisionScores m x).map g).sum := by
    rw [hPmap]
    exact npMax_map _ hφmono.monotone _ hzne
  have hclen : m.classes_.length = (decisionScores m x).length := by
    rw [hzlen, hlc]
  have hiff : ∀ i, i < (decisionScores m x).length →
      ((m.predictProba g x).getD i 0 = npMax (m.predictProba g x)
        ↔ (decisionScores m x).getD i 0 = npMax (decisionScores m x)) := by
    intro i hi
    rw [hmax, hPmap,
      List.getD_eq_getElem _ _ (by rw [List.length_map]; exact hi),
      List.getD_eq_getElem _ _ hi, List.getElem_map]
    constructor
    · intro h
      exact hφmono.injective h
    · intro h
      rw [h]
  have hmaxmem : npMax (decisionScores m x) ∈ decisionScores m x :=
    npMax_mem _ hzne
  have hklt : argmaxFirst (decisionScores m x)
      < (decisionScores m x).length :=
    List.indexOf_lt_length.mpr hmaxmem
  have hkget : (decisionScores m x).getD (argmaxFirst (decisionScores m x)) 0
      = npMax (decisionScores m x) := by
    rw [List.getD_eq_get _ _ hklt]
    exact List.indexOf_get hklt
  have hsorted_le : ∀ i j, ∀ (hi : i < m.classes_.length)
      (hj : j < m.classes_.length), i ≤ j →
      m.classes_.getD i "" ≤ m.classes_.getD j "" := by
    intro i j hi hj hij
    rcases eq_or_lt_of_le hij with rfl | hlt
    · exact le_refl _
    · rw [List.getD_eq_get _ _ hi, List.getD_eq_get _ _ hj]
      exact le_of_lt (hsort.rel_get_of_lt (Fin.mk_lt_mk.mpr hlt))
  constructor
  · refine ⟨argmaxFirst (decisionScores m x), by rw [hclen]; exact hklt,
      ?_, rfl⟩
    exact (hiff _ hklt).mpr hkget
  · intro i hi hPi
    have hzi := (hiff i (by rw [← hclen]; exact hi)).mp hPi
    have hk_le : argmaxFirst (decisionScores m x) ≤ i := by
      apply indexOf_le_of_get_eq (decisionScores m x)
        (npMax (decisionScores m x)) i (by rw [← hclen]; exact hi)
      rw [← List.getD_eq_get _ 0]
      exact hzi
    exact hsorted_le _ _ (by rw [hclen]; exact hklt) hi hk_le

/-- A concrete two-class classifier with identical coefficient rows, so
that every input produces an exact probability tie. -/
def clfW : FittedLogReg :=
  { classes_ := ["Commande", "Urgence"], coef := [[1], [1]],
    intercept := [0, 0] }

/-- Witness for C8: a concrete exact two-way tie resolved in favor of the
lexicographically first category. -/
theorem claim_C8_witness :
    (∃ i, i < clfW.classes_.length ∧
        (clfW.predictProba gW [2]).getD i 0
            = npMax (clfW.predictProba gW [2]) ∧
        clfW.classes_.getD i "" = clfW.predict1 [2]) ∧
      ∀ i, i < clfW.classes_.length →
        (clfW.predictProba gW [2]).getD i 0
            = npMax (clfW.predictProba gW [2]) →
        clfW.predict1 [2] ≤ clfW.classes_.getD i "" :=
  claim_C8_tie_break_lexicographic clfW gW [2] gW_pos gW_strictMono
    (by
      simp only [clfW, List.sorted_cons, List.mem_singleton, forall_eq,
        List.sorted_singleton, and_true]
      rw [String.lt_iff_toList_lt]
      decide)
    rfl rfl (by decide)
    (by
      norm_num [clfW, FittedLogReg.predictProba, softmax, decisionScores,
        dot, gW, npMax, List.filter])

end PMEClassifier
